import Mathlib

/-!
Shallow embedding of the core of `instapaper-cli` (a Go command-line client
for the Instapaper bookmark API) together with proofs about it.

Embedded components and their Go sources:
* OAuth 1.0a signer        — `internal/oauth1` (`AuthorizationHeader`,
  `normalizeParams`, `normalizeURL`, `oauthEscape`, `signHMACSHA1`).
* Retrying transport       — `internal/instapaper/client.go` (`postForm`,
  `shouldRetry`, `parseAPIError`, `SetRetry`).
* Sync cursor / "have"     — `cmd/ip/main.go` (`haveStringFromCursor`,
  `formatHaveEntry`, `mergeHaveString`, `updateCursor`).
* Paginator                — `cmd/ip/main.go` (`listBookmarks`, `saveCursor`).
* Bound / select filtering — `cmd/ip/main.go` (`bookmarkWithinBounds`,
  `filterBookmarksByBounds`, `matchString`, `matchTags`).

Modelling conventions:
* Go `string` is Lean `String`; where Go iterates UTF-8 bytes we convert
  explicitly with `strBytes`.
* Go `int64` / `int` are Lean `Int` (no overflow is exercised by the
  properties below); `time.Duration` is `Int` nanoseconds.
* Go `float64` is modelled as exact rationals `ℚ`; parsing and formatting
  of floats are modelled for plain decimal literals (the only forms the
  cursor protocol produces).
* Randomness (`randomNonce`) and the clock (`Signer.Now`) are inputs.
* The HTTP client, the filesystem and the JSON decoder are oracles: the
  transport is parameterised by the outcome of each attempt, the paginator
  by the response of each page call.
-/

/-! ### Bytes, UTF-8 and ASCII case folding -/

/-- UTF-8 encoding of one character, as bytes (each `< 256`).  Mirrors how
Go strings store text: iterating a Go string iterates these bytes. -/
def charUTF8 (c : Char) : List Nat :=
  let n := c.toNat
  if n < 0x80 then [n]
  else if n < 0x800 then
    [0xC0 ||| (n >>> 6), 0x80 ||| (n &&& 0x3F)]
  else if n < 0x10000 then
    [0xE0 ||| (n >>> 12), 0x80 ||| ((n >>> 6) &&& 0x3F), 0x80 ||| (n &&& 0x3F)]
  else
    [0xF0 ||| (n >>> 18), 0x80 ||| ((n >>> 12) &&& 0x3F),
     0x80 ||| ((n >>> 6) &&& 0x3F), 0x80 ||| (n &&& 0x3F)]

/-- The UTF-8 bytes of a string (Go's byte view of a `string`). -/
def strBytes (s : String) : List Nat := (s.data.map charUTF8).flatten

/-- ASCII lower-casing of one character.  Models the case mapping used by
`strings.ToLower` / `strings.EqualFold`, restricted to ASCII (the Go
functions additionally fold non-ASCII letters; no property below depends
on non-ASCII case folding). -/
def foldChar (c : Char) : Char :=
  if 'A' ≤ c ∧ c ≤ 'Z' then Char.ofNat (c.toNat + 32) else c

/-- ASCII upper-casing of one character (model of `strings.ToUpper`). -/
def upChar (c : Char) : Char :=
  if 'a' ≤ c ∧ c ≤ 'z' then Char.ofNat (c.toNat - 32) else c

/-- Model of `strings.ToLower` (ASCII-restricted, see `foldChar`). -/
def lowerStr (s : String) : String := String.mk (s.data.map foldChar)

/-- Model of `strings.ToUpper` (ASCII-restricted). -/
def upperStr (s : String) : String := String.mk (s.data.map upChar)

/-- Model of `strings.EqualFold` (ASCII-restricted, see `foldChar`). -/
def eqFold (s t : String) : Bool := lowerStr s == lowerStr t

/-- Model of `strings.Contains`: substring test on the character list. -/
def strContains (s sub : String) : Bool := decide (List.IsInfix sub.data s.data)

/-- Go `strings.Split` with a single-character separator, on character
lists (structural recursion, so that every consumer below evaluates by
kernel reduction). -/
def splitOnC (sep : Char) : List Char → List (List Char)
  | [] => [[]]
  | c :: rest =>
      let r := splitOnC sep rest
      if c = sep then [] :: r
      else (c :: r.headD []) :: r.tail

/-- Go `strings.Split(s, sep)` for a one-character `sep`. -/
def splitC (sep : Char) (s : String) : List String :=
  (splitOnC sep s.data).map String.mk

/-- ASCII whitespace, as trimmed by `strings.TrimSpace` (the Go function
also trims non-ASCII Unicode spaces, which never occur here). -/
def isSpaceGo (c : Char) : Bool :=
  c = ' ' || c = '\t' || c = '\n' || c = Char.ofNat 0x0B || c = Char.ofNat 0x0C || c = '\r'

/-- Model of `strings.TrimSpace`. -/
def trimStr (s : String) : String :=
  String.mk (((s.data.dropWhile isSpaceGo).reverse.dropWhile isSpaceGo).reverse)

/-- Model of `strings.Join`. -/
def joinSep (sep : String) : List String → String
  | [] => ""
  | [x] => x
  | x :: rest => x ++ sep ++ joinSep sep rest

/-- Split a character list at the first occurrence of `pat`
(`none` when `pat` does not occur). -/
def breakSub (pat : List Char) : List Char → Option (List Char × List Char)
  | [] => if pat.isPrefixOf ([] : List Char) then some ([], []) else none
  | c :: rest =>
      if pat.isPrefixOf (c :: rest) then some ([], (c :: rest).drop pat.length)
      else
        match breakSub pat rest with
        | some (l, r) => some (c :: l, r)
        | none => none

/-- Lexicographic `≤` on character lists, by code point.  Byte-wise
lexicographic comparison of UTF-8 strings (what Go's native string `<`
does) coincides with code-point order, so this models it faithfully. -/
def charsLe : List Char → List Char → Bool
  | [], _ => true
  | _ :: _, [] => false
  | a :: as, b :: bs => if a < b then true else if b < a then false else charsLe as bs

/-- Go native string `<=`. -/
def strLe (s t : String) : Bool := charsLe s.data t.data

/-- Model of `sort.Strings`: sort ascending in native string order. -/
def sortStrings (l : List String) : List String :=
  List.insertionSort (fun a b => strLe a b = true) l

/-! ### Percent-encoding (`oauth1.oauthEscape`) -/

/-- Is a byte in the RFC 3986 unreserved set
(ALPHA / DIGIT / `-` / `.` / `_` / `~`)?  Mirrors the byte test in
`oauthEscape`. -/
def isUnreservedByte (c : Nat) : Bool :=
  (0x61 ≤ c && c ≤ 0x7A) || (0x41 ≤ c && c ≤ 0x5A) ||
  (0x30 ≤ c && c ≤ 0x39) || c == 0x2D || c == 0x2E || c == 0x5F || c == 0x7E

/-- Upper-case hex digit for a value `< 16` (as produced by Go's
`fmt.Sprintf("%%%02X", c)`). -/
def hexUpper (n : Nat) : Char :=
  if n < 10 then Char.ofNat (48 + n) else Char.ofNat (55 + n)

/-- Percent-encoding of a single byte, per `oauthEscape`. -/
def escByte (c : Nat) : String :=
  if isUnreservedByte c then String.mk [Char.ofNat c]
  else String.mk ['%', hexUpper (c / 16), hexUpper (c % 16)]

/-- `oauth1.oauthEscape`: RFC 3986 percent-encoding over the UTF-8 bytes. -/
def oauthEscape (s : String) : String :=
  String.join ((strBytes s).map escByte)

/-! ### SHA-1, HMAC-SHA1 and Base64 (`oauth1.signHMACSHA1`)

Full implementations over byte lists (`Nat` values `< 256`), so the signer
below is executable end to end; none of the proofs unfold them. -/

/-- Rotate a 32-bit word left by `n`. -/
def rotl32 (n x : Nat) : Nat :=
  ((x <<< n) ||| (x >>> (32 - n))) % 2 ^ 32

/-- Big-endian byte rendering of `x` in `n` bytes. -/
def beBytes : Nat → Nat → List Nat
  | 0, _ => []
  | n + 1, x => beBytes n (x / 256) ++ [x % 256]

/-- Split a byte list into 64-byte chunks. -/
def chunks64 (l : List Nat) : List (List Nat) :=
  if h : l = [] then [] else
    have _hp : 0 < l.length := List.length_pos.mpr h
    l.take 64 :: chunks64 (l.drop 64)
termination_by l.length
decreasing_by
  simp only [List.length_drop]
  omega

/-- Big-endian 32-bit words from bytes (groups of 4). -/
def wordsOfBytes : List Nat → List Nat
  | a :: b :: c :: d :: rest =>
      (((a * 256 + b) * 256 + c) * 256 + d) :: wordsOfBytes rest
  | _ => []

/-- SHA-1 message-schedule extension: `acc` holds the words produced so
far, most recent first; extend by `k` more words. -/
def sha1Extend (acc : List Nat) : Nat → List Nat
  | 0 => acc.reverse
  | k + 1 =>
      let w := rotl32 1 (acc.getD 2 0 ^^^ acc.getD 7 0 ^^^ acc.getD 13 0 ^^^ acc.getD 15 0)
      sha1Extend (w :: acc) k

/-- The SHA-1 round function for round `i`. -/
def sha1F (i b c d : Nat) : Nat :=
  if i < 20 then (b &&& c) ||| ((b ^^^ 0xFFFFFFFF) &&& d)
  else if i < 40 then b ^^^ c ^^^ d
  else if i < 60 then (b &&& c) ||| (b &&& d) ||| (c &&& d)
  else b ^^^ c ^^^ d

/-- The SHA-1 round constant for round `i`. -/
def sha1K (i : Nat) : Nat :=
  if i < 20 then 0x5A827999
  else if i < 40 then 0x6ED9EBA1
  else if i < 60 then 0x8F1BBCDC
  else 0xCA62C1D6

/-- One SHA-1 compression over the indexed schedule words. -/
def sha1Rounds : List (Nat × Nat) → Nat × Nat × Nat × Nat × Nat → Nat × Nat × Nat × Nat × Nat
  | [], st => st
  | (i, w) :: rest, (a, b, c, d, e) =>
      let t := (rotl32 5 a + sha1F i b c d + e + sha1K i + w) % 2 ^ 32
      sha1Rounds rest (t, a, rotl32 30 b, c, d)

/-- Process one 64-byte chunk, updating the five hash words. -/
def sha1Chunk (h : Nat × Nat × Nat × Nat × Nat) (chunk : List Nat) :
    Nat × Nat × Nat × Nat × Nat :=
  let ws := sha1Extend (wordsOfBytes chunk).reverse 64
  let (a, b, c, d, e) := sha1Rounds ((List.range 80).zip ws) h
  let (h0, h1, h2, h3, h4) := h
  ((h0 + a) % 2 ^ 32, (h1 + b) % 2 ^ 32, (h2 + c) % 2 ^ 32,
   (h3 + d) % 2 ^ 32, (h4 + e) % 2 ^ 32)

/-- SHA-1 of a byte list, as 20 bytes. -/
def sha1 (msg : List Nat) : List Nat :=
  let len := msg.length
  let padZeros := (119 - len % 64) % 64
  let padded := msg ++ (0x80 :: List.replicate padZeros 0) ++ beBytes 8 (len * 8)
  let (h0, h1, h2, h3, h4) :=
    (chunks64 padded).foldl sha1Chunk
      (0x67452301, 0xEFCDAB89, 0x98BADCFE, 0x10325476, 0xC3D2E1F0)
  beBytes 4 h0 ++ beBytes 4 h1 ++ beBytes 4 h2 ++ beBytes 4 h3 ++ beBytes 4 h4

/-- HMAC-SHA1 over byte lists (Go `crypto/hmac` with `sha1.New`). -/
def hmacSHA1 (key msg : List Nat) : List Nat :=
  let k0 := if key.length > 64 then sha1 key else key
  let kp := k0 ++ List.replicate (64 - k0.length) 0
  sha1 ((kp.map (· ^^^ 0x5C)) ++ sha1 ((kp.map (· ^^^ 0x36)) ++ msg))

/-- One Base64 alphabet character (standard alphabet). -/
def b64Char (n : Nat) : Char :=
  "ABCDEFGHIJKLMNOPQRSTUVWXYZabcdefghijklmnopqrstuvwxyz0123456789+/".data.getD n 'A'

/-- Standard Base64 encoding with padding (Go
`base64.StdEncoding.EncodeToString`). -/
def base64Enc : List Nat → String
  | a :: b :: c :: rest =>
      String.mk [b64Char (a / 4), b64Char ((a % 4) * 16 + b / 16),
                 b64Char ((b % 16) * 4 + c / 64), b64Char (c % 64)] ++ base64Enc rest
  | [a, b] =>
      String.mk [b64Char (a / 4), b64Char ((a % 4) * 16 + b / 16),
                 b64Char ((b % 16) * 4), '=']
  | [a] =>
      String.mk [b64Char (a / 4), b64Char ((a % 4) * 16), '=', '=']
  | [] => ""

/-- `oauth1.signHMACSHA1`: base64 of the HMAC-SHA1 tag. -/
def signHMACSHA1 (key msg : String) : String :=
  base64Enc (hmacSHA1 (strBytes key) (strBytes msg))

/-! ### OAuth 1.0a signer (`internal/oauth1`) -/

/-- `oauth1.Token`: an OAuth 1.0a token + secret. -/
structure Token where
  key : String
  secret : String
deriving Repr, DecidableEq

/-- First value bound to `k` in an association list, `""` when absent
(Go map lookup of a `string`-valued map). -/
def lookupD (l : List (String × String)) (k : String) : String :=
  match l.find? (fun p => p.1 == k) with
  | some p => p.2
  | none => ""

/-- The oauth parameter set built by `AuthorizationHeader` before signing:
consumer key, nonce, signature method, timestamp, version, and the token
key when a token with a non-empty key is present.  The Go code stores
these in a map; order is irrelevant because every consumer sorts. -/
def oauthParams (consumerKey nonce : String) (ts : Int) (token : Option Token) :
    List (String × String) :=
  [("oauth_consumer_key", consumerKey),
   ("oauth_nonce", nonce),
   ("oauth_signature_method", "HMAC-SHA1"),
   ("oauth_timestamp", toString ts),
   ("oauth_version", "1.0")] ++
  (match token with
   | some t => if t.key ≠ "" then [("oauth_token", t.key)] else []
   | none => [])

/-- The signing key built by `AuthorizationHeader`:
`oauthEscape(consumerSecret) + "&"` plus, when a token is supplied,
`oauthEscape(token.Secret)`. -/
def signingKey (consumerSecret : String) (token : Option Token) : String :=
  oauthEscape consumerSecret ++ "&" ++
    (match token with
     | some t => oauthEscape t.secret
     | none => "")

/-- Ordering used by `normalizeParams`' `sort.Slice`: by encoded key,
ties broken by encoded value. -/
def pairLE (p q : String × String) : Bool :=
  if p.1 = q.1 then strLe p.2 q.2 else strLe p.1 q.1

/-- `oauth1.normalizeParams`: escape every oauth and body parameter,
sort by (encoded key, encoded value), join as `k=v` with `&`.
Go `url.Values` (a map from key to list of values) is modelled as an
association list of key/value-list pairs. -/
def normalizeParams (oauthP : List (String × String))
    (bodyParams : List (String × List String)) : String :=
  let pairs :=
    oauthP.map (fun p => (oauthEscape p.1, oauthEscape p.2)) ++
      (bodyParams.map (fun p => p.2.map (fun v => (oauthEscape p.1, oauthEscape v)))).flatten
  let sorted := List.insertionSort (fun p q => pairLE p q = true) pairs
  joinSep "&" (sorted.map (fun p => p.1 ++ "=" ++ p.2))

/-- `oauth1.normalizeURL`: drop query/fragment, lower-case scheme and
host, default an empty path to "/".  Go parses with `net/url`; URL
parsing is modelled here by splitting on `"://"`, cutting at the first
`?` or `#`, and splitting host from path at the first `/` — faithful for
the well-formed `scheme://host/path` URLs the client builds. -/
def normalizeURL (rawURL : String) : Except String String :=
  match breakSub "://".data rawURL.data with
  | some (schemeChars, restChars) =>
      let scheme := String.mk schemeChars
      let rest := restChars.takeWhile (fun c => c ≠ '?' ∧ c ≠ '#')
      let host := String.mk (rest.takeWhile (fun c => c ≠ '/'))
      let path := String.mk (rest.dropWhile (fun c => c ≠ '/'))
      if scheme = "" ∨ host = "" then .error ("oauth1: invalid URL: " ++ rawURL)
      else .ok (lowerStr scheme ++ "://" ++ lowerStr host ++
                (if path = "" then "/" else path))
  | none => .error ("oauth1: invalid URL: " ++ rawURL)

/-- `oauth1.Signer.AuthorizationHeader`.  The random nonce and the clock
are modelled as the explicit arguments `nonce` and `ts`; everything else
follows the Go function line by line. -/
def authorizationHeader (consumerKey consumerSecret nonce : String) (ts : Int)
    (method rawURL : String) (bodyParams : List (String × List String))
    (token : Option Token) : Except String String :=
  if consumerKey = "" ∨ consumerSecret = "" then
    .error "oauth1: missing consumer credentials"
  else
    match normalizeURL rawURL with
    | .error e => .error e
    | .ok normalizedURL =>
      let oauthP := oauthParams consumerKey nonce ts token
      let paramString := normalizeParams oauthP bodyParams
      let baseString := upperStr method ++ "&" ++ oauthEscape normalizedURL ++ "&" ++
        oauthEscape paramString
      let key := signingKey consumerSecret token
      let sig := signHMACSHA1 key baseString
      let allParams := oauthP ++ [("oauth_signature", sig)]
      let keys := sortStrings (allParams.map Prod.fst)
      let parts := keys.map (fun k => k ++ "=\"" ++ oauthEscape (lookupD allParams k) ++ "\"")
      .ok ("OAuth " ++ joinSep ", " parts)

/-- The signing pipeline downstream of credential validation, with the
signing key as an explicit argument and the token reduced to its key:
used to state that secrets reach the header only through the signing
key. -/
def authHeaderCore (consumerKey nonce : String) (ts : Int)
    (method rawURL : String) (bodyParams : List (String × List String))
    (tokenKey : Option String) (key : String) : Except String String :=
  match normalizeURL rawURL with
  | .error e => .error e
  | .ok normalizedURL =>
    let oauthP := oauthParams consumerKey nonce ts (tokenKey.map (fun k => ⟨k, ""⟩))
    let paramString := normalizeParams oauthP bodyParams
    let baseString := upperStr method ++ "&" ++ oauthEscape normalizedURL ++ "&" ++
      oauthEscape paramString
    let sig := signHMACSHA1 key baseString
    let allParams := oauthP ++ [("oauth_signature", sig)]
    let keys := sortStrings (allParams.map Prod.fst)
    let parts := keys.map (fun k => k ++ "=\"" ++ oauthEscape (lookupD allParams k) ++ "\"")
    .ok ("OAuth " ++ joinSep ", " parts)

/-! ### Retrying transport (`internal/instapaper/client.go`) -/

/-- `instapaper.APIError`: a typed application error `{code, message}`. -/
structure APIError where
  code : Int
  message : String
deriving Repr, DecidableEq

/-- One element of a JSON array response body, as seen by
`parseAPIError`'s per-element `json.Unmarshal` into
`{type, error_code, message}`: either the element does not decode into
that struct (`fail`), or it yields the three fields (absent fields take
Go zero values). -/
inductive JElem where
  | fail : JElem
  | obj : (type : String) → (errorCode : Int) → (message : String) → JElem
deriving Repr, DecidableEq

/-- A response body at the granularity `parseAPIError` inspects it:
either it is empty / does not start with `[` / fails to parse as a JSON
array (`nonArray`), or it is a JSON array with the given elements. -/
inductive RespBody where
  | nonArray : RespBody
  | arr : List JElem → RespBody
deriving Repr, DecidableEq

/-- `instapaper.parseAPIError`: an `APIError` is produced exactly when
the body is a JSON array whose first element decodes to a struct with
`type == "error"`. -/
def parseAPIError : RespBody → Option APIError
  | .nonArray => none
  | .arr [] => none
  | .arr (.fail :: _) => none
  | .arr (.obj t code msg :: _) =>
      if t = "error" then some ⟨code, msg⟩ else none

/-- `instapaper.shouldRetry`: HTTP 429, any 5xx, or an application error
payload with the rate-limit code 1040. -/
def shouldRetry (status : Int) (body : RespBody) : Bool :=
  if status == 429 || status ≥ 500 then true
  else
    match parseAPIError body with
    | some apiErr => apiErr.code == 1040
    | none => false

/-- The outcome of one `postFormOnce` call: a transport-level error
(`terr`, tagged to distinguish errors) or a response with status and
body.  Headers are carried through the Go code unchanged and are not
modelled. -/
inductive Attempt where
  | terr : Nat → Attempt
  | resp : Int → RespBody → Attempt
deriving Repr, DecidableEq

/-- The condition under which `postForm` returns an attempt's outcome as
success: `err == nil && !shouldRetry(status, body)`. -/
def attemptDone : Attempt → Bool
  | .terr _ => false
  | .resp status body => !shouldRetry status body

/-- The claim-level retry classification: a transport error or a
retryable response. -/
def retryableOutcome (a : Attempt) : Bool := !attemptDone a

/-- What a `postForm` run produces, with the observable side effects the
properties talk about: the returned outcome, whether it was replaced by
a context-cancellation error, the number of attempts made, and the
sleeps performed (durations in nanoseconds, in order). -/
structure PFOut where
  result : Attempt
  ctxCancelled : Bool
  calls : Nat
  sleeps : List Int
deriving Repr, DecidableEq

/-- The retry loop of `postForm`.  `oracle i` is the outcome of attempt
`i`; `ctxErr i` tells whether `ctx.Err() != nil` when checked after
attempt `i`; `fuel` is the number of attempts still allowed (the Go
loop's `attempts - i`). -/
def pfLoop (oracle : Nat → Attempt) (ctxErr : Nat → Bool) (backoff : Int) :
    Nat → Nat → PFOut
  | _, 0 => ⟨.terr 0, false, 0, []⟩
  | i, fuel + 1 =>
      let a := oracle i
      if attemptDone a then ⟨a, false, 1, []⟩
      else if ctxErr i then ⟨a, true, 1, []⟩
      else if fuel = 0 then ⟨a, false, 1, []⟩
      else
        let sub := pfLoop oracle ctxErr backoff (i + 1) fuel
        ⟨sub.result, sub.ctxCancelled, sub.calls + 1, backoff * 2 ^ i :: sub.sleeps⟩

/-- `postForm`'s attempt budget: `RetryCount + 1`, clamped to at least
1. -/
def pfAttempts (retryCount : Int) : Nat :=
  (if retryCount + 1 < 1 then 1 else retryCount + 1).toNat

/-- `postForm`'s backoff: `RetryBackoff`, defaulting to 500ms when
non-positive. -/
def pfBackoff (retryBackoff : Int) : Int :=
  if retryBackoff ≤ 0 then 500000000 else retryBackoff

/-- `instapaper.Client.postForm`: the attempt budget and backoff above,
then the retry loop. -/
def postForm (retryCount retryBackoff : Int) (oracle : Nat → Attempt)
    (ctxErr : Nat → Bool) : PFOut :=
  pfLoop oracle ctxErr (pfBackoff retryBackoff) 0 (pfAttempts retryCount)

/-- `instapaper.Client.SetRetry`: clamp a negative count to 0 and a
non-positive backoff to 500ms, store both on the client.  Returns the
stored `(RetryCount, RetryBackoff)`. -/
def setRetry (count backoff : Int) : Int × Int :=
  (if count < 0 then 0 else count,
   if backoff ≤ 0 then 500000000 else backoff)

/-! ### Numeric parsing and formatting (`strconv`) -/

/-- The value of an ASCII digit, if it is one. -/
def digitVal (c : Char) : Option Nat :=
  if '0' ≤ c ∧ c ≤ '9' then some (c.toNat - 48) else none

/-- Value of a nonempty all-digit character list, base 10. -/
def digitsVal (l : List Char) : Option Nat :=
  if l = [] then none
  else l.foldl (fun acc c => match acc, digitVal c with
    | some a, some d => some (a * 10 + d)
    | _, _ => none) (some 0)

/-- Model of `strconv.ParseInt(s, 10, 64)`: optional sign, decimal
digits, 64-bit signed range check. -/
def parseIntQ (s : String) : Option Int :=
  let (sign, digits) : Int × List Char :=
    match s.data with
    | '-' :: rest => (-1, rest)
    | '+' :: rest => (1, rest)
    | l => (1, l)
  match digitsVal digits with
  | none => none
  | some n =>
      let v : Int := sign * n
      if -(2 ^ 63) ≤ v ∧ v < 2 ^ 63 then some v else none

/-- A Go `float64` value, modelled as the exact fraction `num / den`
(with `den > 0` for every value the embedding constructs; fractions are
not reduced — no observed property compares raw fractions, only their
decimal renderings). -/
structure GoFloat where
  num : Int := 0
  den : Int := 1
deriving Repr, DecidableEq

/-- Model of `strconv.ParseFloat(s, 64)` for plain decimal literals
(optional sign, digits with at most one `.`, optional decimal
exponent), returning the exact value.  Go additionally accepts hex
floats and inf/NaN spellings and rounds to the nearest binary64; the
cursor protocol only ever round-trips plain decimals, which this models
exactly. -/
def parseGoFloat (s : String) : Option GoFloat :=
  let (sign, body) : Int × List Char :=
    match s.data with
    | '-' :: rest => (-1, rest)
    | '+' :: rest => (1, rest)
    | l => (1, l)
  let (mant, expPart) : List Char × Option (List Char) :=
    match splitOnC 'e' body with
    | [_] =>
        match splitOnC 'E' body with
        | [m2] => (m2, none)
        | [m2, e2] => (m2, some e2)
        | _ => ([], some [])
    | [m, e] => (m, some e)
    | _ => ([], some [])
  let mantVal : Option (Nat × Nat) :=
    match splitOnC '.' mant with
    | [ip] => (digitsVal ip).map (fun n => (n, 0))
    | [ip, fp] =>
        if ip = [] ∧ fp = [] then none
        else
          match digitsVal (ip ++ fp) with
          | some n => some (n, fp.length)
          | none => none
    | _ => none
  match mantVal with
  | none => none
  | some (n, fracLen) =>
      match expPart with
      | none => some ⟨sign * n, (10 : Int) ^ fracLen⟩
      | some e =>
          let (esign, edigits) : Int × List Char :=
            match e with
            | '-' :: rest => (-1, rest)
            | '+' :: rest => (1, rest)
            | l => (1, l)
          match digitsVal edigits with
          | none => none
          | some ev =>
              if esign = 1 then some ⟨sign * n * 10 ^ ev, (10 : Int) ^ fracLen⟩
              else some ⟨sign * n, (10 : Int) ^ (fracLen + ev)⟩

/-- Decimal digits of the fraction `rem / den` (with `rem < den`), up
to `fuel` digits; stops when the remainder reaches 0. -/
def fracDigits (den : Nat) : Nat → Nat → List Nat
  | _, 0 => []
  | rem, fuel + 1 =>
      if rem = 0 then []
      else (rem * 10) / den :: fracDigits den ((rem * 10) % den) fuel

/-- Model of `strconv.FormatFloat(p, 'f', -1, 64)`: the shortest `'f'`
representation.  binary64 values have finite decimal expansions of at
most 1076 fractional digits, and on the exact-fraction model the
shortest representation is the exact minimal expansion, computed here
by long division. -/
def formatFloat (f : GoFloat) : String :=
  let a := f.num.natAbs
  let d := f.den.natAbs
  let ip := a / d
  let ds := fracDigits d (a % d) 1100
  (if f.num < 0 then "-" else "") ++ toString ip ++
    (if ds = [] then "" else "." ++ String.mk (ds.map (fun d => Char.ofNat (48 + d))))

/-! ### Data model (`internal/instapaper/types.go`) -/

/-- `instapaper.Tag`. -/
structure Tag where
  id : Int
  name : String
deriving Repr, DecidableEq

/-- `instapaper.Bookmark`.  `Int64` is `Int`, `Float64` is `GoFloat`,
`BoolInt` is `Bool`. -/
structure Bookmark where
  type : String := "bookmark"
  bookmarkID : Int := 0
  url : String := ""
  title : String := ""
  description : String := ""
  hash : String := ""
  progress : GoFloat := {}
  progressTimestamp : Int := 0
  starred : Bool := false
  privateSource : String := ""
  time : Int := 0
  tags : List Tag := []
deriving Repr, DecidableEq

/-! ### Sync cursor / "have" protocol (`cmd/ip/main.go`) -/

/-- `cursorEntry`: the persisted fingerprint of one bookmark. -/
structure CursorEntry where
  hash : String := ""
  progress : GoFloat := {}
  progressTimestamp : Int := 0
deriving Repr, DecidableEq

/-- `listCursor.Have`, a Go `map[string]cursorEntry`, modelled as an
association list with pairwise-distinct keys (`cursorKeysNodup`). -/
abbrev Cursor := List (String × CursorEntry)

/-- Keys of a cursor. -/
def cursorKeys (cur : Cursor) : List String := cur.map Prod.fst

/-- Go map write `cur.Have[id] = entry`: replace in place or append. -/
def cursorSet (cur : Cursor) (k : String) (v : CursorEntry) : Cursor :=
  if (cursorKeys cur).contains k then
    cur.map (fun p => if p.1 = k then (k, v) else p)
  else cur ++ [(k, v)]

/-- Go map delete `delete(cur.Have, id)`. -/
def cursorDel (cur : Cursor) (k : String) : Cursor :=
  cur.filter (fun p => p.1 ≠ k)

/-- Go map read `cur.Have[id]` (zero value when absent). -/
def cursorGet (cur : Cursor) (k : String) : CursorEntry :=
  match cur.find? (fun p => p.1 == k) with
  | some p => p.2
  | none => {}

/-- `formatHaveEntry`: `id`, `id:hash`, or
`id:hash:progress:progressTimestamp`. -/
def formatHaveEntry (id : String) (entry : CursorEntry) : String :=
  if entry.hash = "" then id
  else if entry.progressTimestamp > 0 then
    joinSep ":"
      [id, entry.hash, formatFloat entry.progress, toString entry.progressTimestamp]
  else id ++ ":" ++ entry.hash

/-- `haveStringFromCursor`: entries sorted by id (string order), joined
with `,`. -/
def haveStringFromCursor (cur : Cursor) : String :=
  if cur.isEmpty then ""
  else
    let ids := sortStrings (cursorKeys cur)
    joinSep "," (ids.map (fun id => formatHaveEntry id (cursorGet cur id)))

/-- Parse one comma-separated part of a caller-supplied "have" string
into a cursor update, as the loop body of `mergeHaveString` does. -/
def mergeHavePart (cur : Cursor) (part : String) : Cursor :=
  let part := trimStr part
  if part = "" then cur
  else
    let fields := splitC ':' part
    let id := trimStr (fields.headD "")
    if id = "" then cur
    else
      let entry : CursorEntry := {}
      let entry := if fields.length > 1 then { entry with hash := fields.getD 1 "" } else entry
      let entry :=
        if fields.length > 3 then
          let entry :=
            match parseGoFloat (fields.getD 2 "") with
            | some p => { entry with progress := p }
            | none => entry
          match parseIntQ (fields.getD 3 "") with
          | some ts => { entry with progressTimestamp := ts }
          | none => entry
        else entry
      cursorSet cur id entry

/-- `mergeHaveString`: fold a caller-supplied exclusion string into the
cursor. -/
def mergeHaveString (cur : Cursor) (haveStr : String) : Cursor :=
  (splitC ',' haveStr).foldl mergeHavePart cur

/-- `updateCursor`: upsert every returned bookmark's fingerprint, then
drop every id in the page's delete-list. -/
def updateCursor (cur : Cursor) (bookmarks : List Bookmark) (deleteIDs : List Int) :
    Cursor :=
  let cur := bookmarks.foldl
    (fun cur b => cursorSet cur (toString b.bookmarkID)
      ⟨b.hash, b.progress, b.progressTimestamp⟩) cur
  deleteIDs.foldl (fun cur id => cursorDel cur (toString id)) cur

/-! ### Paginator (`cmd/ip/main.go` `listBookmarks`) -/

/-- `instapaper.ListBookmarksOptions` as built for each page request.
`Have` is named `haveParam` (`have` is reserved in Lean). -/
structure ListOpts where
  limit : Int
  folderID : String
  tag : String
  haveParam : String
  highlights : String
deriving Repr, DecidableEq

/-- One page response (`instapaper.BookmarksListResponse`), as produced
by a successful `client.ListBookmarks` call.  The user object and the
highlight objects are carried through untouched by the paginator and are
modelled as opaque tags. -/
structure PageResp where
  user : Int := 0
  bookmarks : List Bookmark := []
  highlights : List Nat := []
  deleteIDs : List Int := []
deriving Repr, DecidableEq

/-- The accumulated walk result (`resp` in `listBookmarks`). -/
structure WalkResp where
  user : Int := 0
  bookmarks : List Bookmark := []
  highlights : List Nat := []
  deleteIDs : List Int := []
deriving Repr, DecidableEq

/-- Errors a walk can surface.  Tags keep distinct underlying Go errors
distinct; `fuelOut` is the sentinel of the fuel-bounded recursion and is
never produced for the executions the theorems consider. -/
inductive WalkErr where
  | load : Nat → WalkErr
  | page : Nat → WalkErr
  | handler : Nat → WalkErr
  | maxPagesExceeded : WalkErr
  | save : Nat → WalkErr
  | usage : String → WalkErr
  | fuelOut : WalkErr
deriving Repr, DecidableEq

/-- `listBookmarksParams`.  `Have` is named `haveArg`; the page handler
returns `some tag` to model a non-nil error. -/
structure ListParams where
  limit : Int := 0
  folderID : String := ""
  tag : String := ""
  haveArg : String := ""
  highlights : String := ""
  fields : String := ""
  cursorPath : String := ""
  maxPages : Int := 0
  pageHandler : Option (List Bookmark → Nat → Option Nat) := none
  discardOutput : Bool := false

/-- Observable side effects of a walk: page calls (with the options
sent) and cursor-file writes. -/
inductive Event where
  | call : Nat → ListOpts → Event
  | save : String → Cursor → Event
deriving Repr, DecidableEq

/-- Is this event a page call? -/
def isCallEvent : Event → Bool
  | .call _ _ => true
  | .save _ _ => false

/-- Is this event a cursor-file write? -/
def isSaveEvent : Event → Bool
  | .call _ _ => false
  | .save _ _ => true

/-- `loadCursor`: an empty path or a missing/empty file yields an empty
cursor; only a read or parse failure is an error.  The filesystem is
the oracle `fs` (`.error t` = read/parse failure, `.ok none` = file
missing or empty, `.ok (some c)` = parsed cursor). -/
def loadCursorM (fs : String → Except Nat (Option Cursor)) (path : String) :
    Except Nat Cursor :=
  if path = "" then .ok []
  else
    match fs path with
    | .error t => .error t
    | .ok none => .ok []
    | .ok (some c) => .ok c

/-- Loop state threaded through the pages of one walk. -/
structure LoopState where
  resp : WalkResp
  cursor : Option Cursor
  haveStr : String

/-- The page loop of `listBookmarks`.  `oracle pages opts` is the result
of the `client.ListBookmarks` call for 1-based page number `pages`;
`fuel` bounds the recursion and is chosen large enough that the loop's
own stopping conditions always fire first. -/
def listLoop (oracle : Nat → ListOpts → Except Nat PageResp) (p : ListParams)
    (limit maxPages : Int) :
    LoopState → Nat → Nat → Except WalkErr (WalkResp × Option Cursor) × List Event
  | _, _, 0 => (.error .fuelOut, [])
  | st, pages, fuel + 1 =>
      let pages := pages + 1
      if p.limit == 0 ∧ (pages : Int) > maxPages then (.error .maxPagesExceeded, [])
      else
        let opts : ListOpts := ⟨limit, p.folderID, p.tag, st.haveStr, p.highlights⟩
        match oracle pages opts with
        | .error t => (.error (.page t), [.call pages opts])
        | .ok r =>
            let resp : WalkResp :=
              { user := r.user
                bookmarks := st.resp.bookmarks ++
                  (if p.discardOutput then [] else r.bookmarks)
                highlights := st.resp.highlights ++ r.highlights
                deleteIDs := st.resp.deleteIDs ++ r.deleteIDs }
            match (match p.pageHandler with
                   | some h => h r.bookmarks pages
                   | none => none) with
            | some t => (.error (.handler t), [.call pages opts])
            | none =>
                let (cursor, haveStr) :=
                  match st.cursor with
                  | some cur =>
                      let cur := updateCursor cur r.bookmarks r.deleteIDs
                      (some cur, haveStringFromCursor cur)
                  | none => (none, st.haveStr)
                if p.limit > 0 ∨ r.bookmarks.isEmpty then
                  (.ok (resp, cursor), [.call pages opts])
                else
                  let (res, evs) :=
                    listLoop oracle p limit maxPages ⟨resp, cursor, haveStr⟩ pages fuel
                  (res, .call pages opts :: evs)

/-- The effective page cap used by `listBookmarks`: a non-positive
`MaxPages` falls back to the default 200. -/
def maxPagesEff (maxPages : Int) : Int :=
  if maxPages ≤ 0 then 200 else maxPages

/-- The walk phase of `listBookmarks`: load the cursor, fold an
explicit `--have` string into it, default limit 0 to 500-item pages,
and drive the page loop.  Returns the loop outcome (with the final
cursor) and the page-call events. -/
def listBookmarksWalk (fs : String → Except Nat (Option Cursor))
    (oracle : Nat → ListOpts → Except Nat PageResp)
    (p : ListParams) : Except WalkErr (WalkResp × Option Cursor) × List Event :=
  let cursor0 : Except Nat (Option Cursor) :=
    if p.cursorPath ≠ "" then
      match loadCursorM fs p.cursorPath with
      | .error t => .error t
      | .ok c => .ok (some c)
    else .ok none
  match cursor0 with
  | .error t => (.error (.load t), [])
  | .ok cursor0 =>
      let haveT := trimStr p.haveArg
      let (cursor1, have1) :=
        if haveT ≠ "" then
          let cur := mergeHaveString (cursor0.getD []) haveT
          (some cur, haveStringFromCursor cur)
        else
          match cursor0 with
          | some cur => (some cur, haveStringFromCursor cur)
          | none => (none, haveT)
      let (cursor2, limit) :=
        if p.limit == 0 then (some (cursor1.getD []), (500 : Int))
        else (cursor1, p.limit)
      let maxPages := maxPagesEff p.maxPages
      listLoop oracle p limit maxPages ⟨{}, cursor2, have1⟩ 0 (maxPages.toNat + 1)

/-- `listBookmarks`: the walk above, then — only when the whole walk
succeeded — one `saveCursor` call.  `saver path cur` is the outcome of
`saveCursor` (`some tag` = write failure); a save is attempted (and the
event recorded) only for a non-empty cursor path, since `saveCursor`
returns immediately on an empty path. -/
def listBookmarks (fs : String → Except Nat (Option Cursor))
    (saver : String → Cursor → Option Nat)
    (oracle : Nat → ListOpts → Except Nat PageResp)
    (p : ListParams) : Except WalkErr WalkResp × List Event :=
  match listBookmarksWalk fs oracle p with
  | (.error e, evs) => (.error e, evs)
  | (.ok (resp, cursorF), evs) =>
      match cursorF with
      | some cur =>
          if p.cursorPath = "" then (.ok resp, evs)
          else
            match saver p.cursorPath cur with
            | some t => (.error (.save t), evs ++ [.save p.cursorPath cur])
            | none => (.ok resp, evs ++ [.save p.cursorPath cur])
      | none => (.ok resp, evs)

/-- The pre-network validation of `runList` (`cmd/ip/main.go`, the
checks on `--limit` and `--max-pages` that run before the client is
built): `--limit` outside `0..500` and `--max-pages < 0` are usage
errors. -/
def runListValidate (limit maxPages : Int) : Option String :=
  if limit < 0 ∨ limit > 500 then
    some ("invalid --limit " ++ toString limit ++ " (expected 0..500)")
  else if maxPages < 0 then some "--max-pages must be >= 0"
  else none

/-- `runList` reduced to the parts the pagination properties observe:
flag validation first (no side effects on failure), then the
`listBookmarks` walk.  The config load and folder-name resolution that
sit between the two in Go are not modelled; with the default folder
(`unread`) they perform no network call. -/
def runListModel (fs : String → Except Nat (Option Cursor))
    (saver : String → Cursor → Option Nat)
    (oracle : Nat → ListOpts → Except Nat PageResp)
    (p : ListParams) : Except WalkErr WalkResp × List Event :=
  match runListValidate p.limit p.maxPages with
  | some msg => (.error (.usage msg), [])
  | none => listBookmarks fs saver oracle p

/-! ### Bound filtering (`cmd/ip/main.go`) -/

/-- `boundSpec`: one since/until bound, already parsed. -/
structure BoundSpec where
  field : String
  value : Int
deriving Repr, DecidableEq

/-- `updatedValue`: the synthetic "most recently touched" value —
progress timestamp when positive, else creation time. -/
def updatedValue (b : Bookmark) : Int :=
  if b.progressTimestamp > 0 then b.progressTimestamp else b.time

/-- `bookmarkFieldValue`: the bound field of a bookmark; any
unrecognized field falls back to the creation time. -/
def bookmarkFieldValue (b : Bookmark) (field : String) : Int :=
  if field = "bookmark_id" then b.bookmarkID
  else if field = "progress_timestamp" then b.progressTimestamp
  else if field = "updated" then updatedValue b
  else b.time

/-- `bookmarkWithinBounds`: inclusive on both ends (`< since` and
`> until` are the only rejections).  A `none` bound is Go's nil
`*boundSpec`. -/
def bookmarkWithinBounds (b : Bookmark) (sinceB untilB : Option BoundSpec) : Bool :=
  (match sinceB with
   | some s => !(bookmarkFieldValue b s.field < s.value)
   | none => true) &&
  (match untilB with
   | some u => !(bookmarkFieldValue b u.field > u.value)
   | none => true)

/-- `filterBookmarksByBounds`. -/
def filterBookmarksByBounds (bookmarks : List Bookmark)
    (sinceB untilB : Option BoundSpec) : List Bookmark :=
  if sinceB = none ∧ untilB = none then bookmarks
  else bookmarks.filter (fun b => bookmarkWithinBounds b sinceB untilB)

/-! ### Select filtering (`cmd/ip/main.go`) -/

/-- `selectFilter`: one `field<op>value` clause. -/
structure SelectFilter where
  field : String
  op : String
  value : String
deriving Repr, DecidableEq

/-- `matchString`: `=` and `!=` via `strings.EqualFold`, `~` via
case-insensitive substring; any other operator fails. -/
def matchString (value : String) (f : SelectFilter) : Bool :=
  if f.op = "=" then eqFold value f.value
  else if f.op = "!=" then !eqFold value f.value
  else if f.op = "~" then strContains (lowerStr value) (lowerStr f.value)
  else false

/-- `matchTags`: the Go loop over tags with its early returns — `=`/`~`
succeed on the first matching tag, `!=` fails on the first
case-insensitively equal tag; an exhausted loop returns `op == "!="`. -/
def matchTags (tags : List Tag) (f : SelectFilter) : Bool :=
  match tags with
  | [] => f.op == "!="
  | tag :: rest =>
      if f.op = "=" then
        if eqFold tag.name f.value then true else matchTags rest f
      else if f.op = "!=" then
        if eqFold tag.name f.value then false else matchTags rest f
      else if f.op = "~" then
        if strContains (lowerStr tag.name) (lowerStr f.value) then true
        else matchTags rest f
      else matchTags rest f

/-! ### Concrete fixtures used by the closed properties -/

/-- A server that answers 429, 429, then 200 (bodies empty). -/
def oracle429 : Nat → Attempt :=
  fun i => if i < 2 then .resp 429 .nonArray else .resp 200 .nonArray

/-- A context that is never cancelled. -/
def noCtx : Nat → Bool := fun _ => false

/-- A transport that always fails at the network level. -/
def oracleNetDown : Nat → Attempt := fun _ => .terr 0

/-- A filesystem with no cursor files (every load yields an empty
cursor). -/
def fsEmpty : String → Except Nat (Option Cursor) := fun _ => .ok none

/-- A cursor saver that always succeeds. -/
def saverOK : String → Cursor → Option Nat := fun _ _ => none

/-- A one-bookmark page, the same on every call. -/
def pageOne : PageResp := { bookmarks := [{ bookmarkID := 1, hash := "h" }] }

/-- A server that never returns an empty page. -/
def oracleNeverEmpty : Nat → ListOpts → Except Nat PageResp := fun _ _ => .ok pageOne

/-- A server whose second page is empty. -/
def oracleTwoPages : Nat → ListOpts → Except Nat PageResp :=
  fun n _ => .ok (if n ≤ 1 then pageOne else {})

/-! ## Properties -/

/-- C9: since/until bound filtering is inclusive on both ends — a
bookmark is kept iff `since ≤ v` and `v ≤ until` for each bound present;
concretely, creation times 100/200/300 filtered with since=150 keep
200 and 300, and adding until=250 leaves exactly 200. -/
theorem bound_filtering_inclusive :
    (∀ (b : Bookmark) (sinceB untilB : Option BoundSpec),
      bookmarkWithinBounds b sinceB untilB =
        (sinceB.all (fun s => decide (s.value ≤ bookmarkFieldValue b s.field)) &&
         untilB.all (fun u => decide (bookmarkFieldValue b u.field ≤ u.value)))) ∧
    filterBookmarksByBounds [{ time := 100 }, { time := 200 }, { time := 300 }]
        (some ⟨"time", 150⟩) none = [{ time := 200 }, { time := 300 }] ∧
    filterBookmarksByBounds [{ time := 100 }, { time := 200 }, { time := 300 }]
        (some ⟨"time", 150⟩) (some ⟨"time", 250⟩) = [{ time := 200 }] := by
  refine ⟨?_, by decide, by decide⟩
  intro b sinceB untilB
  cases sinceB <;> cases untilB <;>
    first
    | rfl
    | (rw [Bool.eq_iff_iff]
       simp only [bookmarkWithinBounds, Option.all, Bool.and_eq_true,
         Bool.not_eq_true', decide_eq_true_eq, decide_eq_false_iff_not, gt_iff_lt,
         true_and, and_true]
       omega)

/-- C10: the `=` and `!=` select operators on string-valued fields
compare case-insensitively (`strings.EqualFold`), and on the
multi-valued tags field `=` matches iff some tag folds equal while `!=`
matches iff no tag folds equal. -/
theorem select_string_ops_case_insensitive :
    (∀ (v fld val : String),
      matchString v ⟨fld, "=", val⟩ = eqFold v val ∧
      matchString v ⟨fld, "!=", val⟩ = !eqFold v val) ∧
    (∀ (tags : List Tag) (fld val : String),
      matchTags tags ⟨fld, "=", val⟩ = tags.any (fun t => eqFold t.name val) ∧
      matchTags tags ⟨fld, "!=", val⟩ = tags.all (fun t => !eqFold t.name val)) := by
  constructor
  · intro v fld val
    constructor <;> simp [matchString]
  · intro tags fld val
    constructor <;> induction tags with
    | nil => simp [matchTags]
    | cons t rest ih =>
        simp only [matchTags, List.any_cons, List.all_cons]
        cases h : eqFold t.name val <;> simp [h, ih]

/-- C5: merging `"5:abc,6:def:0.5:1700000000"` into an empty cursor
yields exactly the two entries 5 and 6; a page update upserting id 6
with a new hash and deleting id 5 leaves a "have" string holding only
id 6 with the new hash. -/
theorem merge_then_update_scenario :
    (mergeHaveString [] "5:abc,6:def:0.5:1700000000").length = 2 ∧
    cursorKeys (mergeHaveString [] "5:abc,6:def:0.5:1700000000") = ["5", "6"] ∧
    haveStringFromCursor
      (updateCursor (mergeHaveString [] "5:abc,6:def:0.5:1700000000")
        [{ bookmarkID := 6, hash := "xyz", progress := ⟨1, 2⟩,
           progressTimestamp := 1700000001 }]
        [5]) = "6:xyz:0.5:1700000001" := by
  refine ⟨by decide, by decide, by decide⟩

/-- The backoff schedule grows by one initial entry when the loop starts
one attempt earlier. -/
theorem range_map_backoff (backoff : Int) (i j : Nat) :
    backoff * 2 ^ i :: (List.range j).map (fun t => backoff * 2 ^ (i + 1 + t)) =
    (List.range (j + 1)).map (fun t => backoff * 2 ^ (i + t)) := by
  rw [List.range_succ_eq_map, List.map_cons, List.map_map]
  congr 1
  apply List.map_congr_left
  intro a _
  simp only [Function.comp_apply]
  congr 2
  omega

/-- Unfolding lemma: a retry-loop run whose first `j` attempts are
retryable and whose attempt `j` is accepted returns attempt `j`'s
outcome after `j` sleeps of `backoff * 2^i` each, provided the context
is never cancelled and `j` is within the attempt budget. -/
theorem pfLoop_first_done (oracle : Nat → Attempt) (ctxErr : Nat → Bool)
    (backoff : Int) (hctx : ∀ i, ctxErr i = false) :
    ∀ (fuel i j : Nat), j < fuel → attemptDone (oracle (i + j)) = true →
      (∀ k, k < j → attemptDone (oracle (i + k)) = false) →
      pfLoop oracle ctxErr backoff i fuel =
        ⟨oracle (i + j), false, j + 1,
          (List.range j).map (fun t => backoff * 2 ^ (i + t))⟩ := by
  intro fuel
  induction fuel with
  | zero => intro i j hj; omega
  | succ f ih =>
      intro i j hj hdone hbefore
      match j with
      | 0 =>
          rw [Nat.add_zero] at hdone
          simp [pfLoop, hdone]
      | j' + 1 =>
          have h0 : attemptDone (oracle (i + 0)) = false := hbefore 0 (by omega)
          rw [Nat.add_zero] at h0
          have hf : ¬(f = 0) := by omega
          have hrec := ih (i + 1) j' (by omega)
            (by rw [show i + 1 + j' = i + (j' + 1) by omega]; exact hdone)
            (by
              intro k hk
              rw [show i + 1 + k = i + (k + 1) by omega]
              exact hbefore (k + 1) (by omega))
          rw [pfLoop]
          simp only [h0, hctx i, Bool.false_eq_true, if_false, if_neg hf, hrec]
          rw [show i + 1 + j' = i + (j' + 1) by omega, range_map_backoff]

/-- Unfolding lemma: a retry-loop run all of whose attempts are
retryable exhausts the budget, returning the last attempt's outcome
after `fuel - 1` sleeps. -/
theorem pfLoop_exhausted (oracle : Nat → Attempt) (ctxErr : Nat → Bool)
    (backoff : Int) (hctx : ∀ i, ctxErr i = false) :
    ∀ (fuel i : Nat), 1 ≤ fuel → (∀ k, k < fuel → attemptDone (oracle (i + k)) = false) →
      pfLoop oracle ctxErr backoff i fuel =
        ⟨oracle (i + (fuel - 1)), false, fuel,
          (List.range (fuel - 1)).map (fun t => backoff * 2 ^ (i + t))⟩ := by
  intro fuel
  induction fuel with
  | zero => intro i h; omega
  | succ f ih =>
      intro i _ hall
      have h0 : attemptDone (oracle (i + 0)) = false := hall 0 (by omega)
      rw [Nat.add_zero] at h0
      match f, ih with
      | 0, _ =>
          rw [pfLoop]
          simp [h0, hctx i]
      | f' + 1, ih =>
          have hrec := ih (i + 1) (by omega)
            (by
              intro k hk
              rw [show i + 1 + k = i + (k + 1) by omega]
              exact hall (k + 1) (by omega))
          rw [pfLoop]
          simp only [h0, hctx i, Bool.false_eq_true, if_false,
            if_neg (Nat.succ_ne_zero f'), hrec, Nat.add_sub_cancel]
          rw [show i + 1 + f' = i + (f' + 1) by omega, range_map_backoff]

/-- The attempt budget is always at least 1. -/
theorem pfAttempts_pos (rc : Int) : 1 ≤ pfAttempts rc := by
  unfold pfAttempts
  split <;> omega

/-- C1 (counterexample): with one retry configured and a transport-level
error on every attempt, `postForm` makes a second attempt and sleeps
once — refuting the claim that a transport-level error is returned
immediately on first occurrence with no further attempt or sleep. -/
theorem transport_error_is_retried :
    (postForm 1 7 oracleNetDown noCtx).calls = 2 ∧
    (postForm 1 7 oracleNetDown noCtx).sleeps = [7] ∧
    (postForm 1 7 oracleNetDown noCtx).result = .terr 0 ∧
    ¬((postForm 1 7 oracleNetDown noCtx).calls = 1 ∧
      (postForm 1 7 oracleNetDown noCtx).sleeps = []) := by
  decide

/-- C1 (amended): with the context never cancelled, an attempt's outcome
is retried iff it is retryable, where retryable means a transport-level
error, HTTP 429 or ≥500, or an application-error payload with code 1040;
success and every other application-level response are returned on first
occurrence, with exactly the preceding attempts' backoff sleeps. -/
theorem postForm_retry_discipline (rc bo : Int) (oracle : Nat → Attempt)
    (ctxErr : Nat → Bool) (hctx : ∀ i, ctxErr i = false) :
    (∀ t, retryableOutcome (.terr t) = true) ∧
    (∀ s body, retryableOutcome (.resp s body) = shouldRetry s body) ∧
    (∀ j, j < pfAttempts rc → retryableOutcome (oracle j) = false →
      (∀ k, k < j → retryableOutcome (oracle k) = true) →
      postForm rc bo oracle ctxErr =
        ⟨oracle j, false, j + 1, (List.range j).map (fun t => pfBackoff bo * 2 ^ t)⟩) ∧
    ((∀ k, k < pfAttempts rc → retryableOutcome (oracle k) = true) →
      postForm rc bo oracle ctxErr =
        ⟨oracle (pfAttempts rc - 1), false, pfAttempts rc,
          (List.range (pfAttempts rc - 1)).map (fun t => pfBackoff bo * 2 ^ t)⟩) := by
  have hconv : ∀ a, retryableOutcome a = false ↔ attemptDone a = true := by
    intro a
    simp [retryableOutcome]
  have hconvT : ∀ a, retryableOutcome a = true ↔ attemptDone a = false := by
    intro a
    simp [retryableOutcome]
  refine ⟨fun t => rfl, fun s body => by simp [retryableOutcome, attemptDone], ?_, ?_⟩
  · intro j hj hdone hbefore
    have h := pfLoop_first_done oracle ctxErr (pfBackoff bo) hctx (pfAttempts rc) 0 j hj
      (by simpa using (hconv _).mp hdone)
      (by
        intro k hk
        simpa using (hconvT _).mp (hbefore k hk))
    unfold postForm
    simpa using h
  · intro hall
    have h := pfLoop_exhausted oracle ctxErr (pfBackoff bo) hctx (pfAttempts rc) 0
      (pfAttempts_pos rc)
      (by
        intro k hk
        simpa using (hconvT _).mp (hall k hk))
    unfold postForm
    simpa using h

/-- Witness for the amended retry discipline: one retry, a retryable
429 then a success — two calls, one sleep. -/
theorem postForm_retry_discipline_witness :
    postForm 1 7 (fun i => if i = 0 then .resp 429 .nonArray else .resp 200 .nonArray)
        noCtx =
      ⟨.resp 200 .nonArray, false, 2,
        (List.range 1).map (fun t => pfBackoff 7 * 2 ^ t)⟩ := by
  have h := (postForm_retry_discipline 1 7
    (fun i => if i = 0 then .resp 429 .nonArray else .resp 200 .nonArray)
    noCtx (fun _ => rfl)).2.2.1 1 (by decide) (by decide) (by decide)
  simpa using h

/-- C2: a transport configured via `SetRetry` for 3 total attempts with
base backoff `b`, against a server answering 429, 429, 200: the call
succeeds with status 200, exactly 2 sleeps occur, the i-th sleep is
`b * 2^i`, and the second sleep is at least twice the first. -/
theorem retry_429_twice_then_ok (b : Int) (hb : 0 < b) :
    (postForm (setRetry 2 b).1 (setRetry 2 b).2 oracle429 noCtx).result =
        .resp 200 .nonArray ∧
    (postForm (setRetry 2 b).1 (setRetry 2 b).2 oracle429 noCtx).calls = 3 ∧
    (postForm (setRetry 2 b).1 (setRetry 2 b).2 oracle429 noCtx).sleeps =
        [b * 2 ^ 0, b * 2 ^ 1] ∧
    2 * (b * 2 ^ 0) ≤ b * 2 ^ 1 := by
  have hs1 : (setRetry 2 b).1 = 2 := by norm_num [setRetry]
  have hs2 : (setRetry 2 b).2 = b := by
    unfold setRetry
    simp only
    rw [if_neg (by omega)]
  have hb2 : pfBackoff b = b := by
    unfold pfBackoff
    rw [if_neg (by omega)]
  have ha : pfAttempts 2 = 3 := by decide
  have h := pfLoop_first_done oracle429 noCtx b (fun _ => rfl) 3 0 2 (by omega)
    (by decide)
    (by
      intro k hk
      interval_cases k <;> decide)
  have hpf : postForm (setRetry 2 b).1 (setRetry 2 b).2 oracle429 noCtx =
      pfLoop oracle429 noCtx b 0 3 := by
    rw [hs1, hs2]
    unfold postForm
    rw [hb2, ha]
  rw [hpf, h]
  refine ⟨rfl, rfl, ?_, by omega⟩
  simp [List.range_succ]

/-- Witness for the 429/429/200 retry scenario at `b = 7`. -/
theorem retry_429_twice_then_ok_witness :
    (0 : Int) < 7 ∧
    (postForm (setRetry 2 7).1 (setRetry 2 7).2 oracle429 noCtx).sleeps =
      [7 * 2 ^ 0, 7 * 2 ^ 1] :=
  ⟨by norm_num, (retry_429_twice_then_ok 7 (by norm_num)).2.2.1⟩

/-- C3: the oauth parameter set is independent of the token secret, the
signing key is `encode(consumerSecret) & encode(tokenSecret-or-empty)`,
and the whole Authorization header depends on the secrets only through
the signing key (it factors through `authHeaderCore`, which sees the
token only as its key). -/
theorem authHeader_secret_flow (ck cs nonce : String) (ts : Int)
    (method rawURL : String) (bodyParams : List (String × List String)) (k s : String)
    (hck : ck ≠ "") (hcs : cs ≠ "") :
    oauthParams ck nonce ts (some ⟨k, s⟩) = oauthParams ck nonce ts (some ⟨k, ""⟩) ∧
    signingKey cs (some ⟨k, s⟩) = oauthEscape cs ++ "&" ++ oauthEscape s ∧
    signingKey cs none = oauthEscape cs ++ "&" ++ oauthEscape "" ∧
    authorizationHeader ck cs nonce ts method rawURL bodyParams (some ⟨k, s⟩) =
      authHeaderCore ck nonce ts method rawURL bodyParams (some k)
        (signingKey cs (some ⟨k, s⟩)) ∧
    authorizationHeader ck cs nonce ts method rawURL bodyParams none =
      authHeaderCore ck nonce ts method rawURL bodyParams none (signingKey cs none) := by
  have hne : ¬(ck = "" ∨ cs = "") := by simp [hck, hcs]
  refine ⟨rfl, rfl, rfl, ?_, ?_⟩
  · unfold authorizationHeader authHeaderCore
    rw [if_neg hne]
    cases normalizeURL rawURL with
    | error e => rfl
    | ok u => rfl
  · unfold authorizationHeader authHeaderCore
    rw [if_neg hne]
    cases normalizeURL rawURL with
    | error e => rfl
    | ok u => rfl

/-- Witness for the secret-flow property at concrete credentials. -/
theorem authHeader_secret_flow_witness :
    authorizationHeader "ck" "cs" "n0" 100 "POST" "https://api.example.com/x" []
        (some ⟨"tk", "ts"⟩) =
      authHeaderCore "ck" "n0" 100 "POST" "https://api.example.com/x" [] (some "tk")
        (signingKey "cs" (some ⟨"tk", "ts"⟩)) :=
  (authHeader_secret_flow "ck" "cs" "n0" 100 "POST" "https://api.example.com/x" []
    "tk" "ts" (by decide) (by decide)).2.2.2.1

/-- C8 (counterexample): `maxPages = 0` is not rejected — `runList`'s
validation accepts it (only negative values are usage errors) and the
walk proceeds to make a network call, with the page cap defaulted
to 200. -/
theorem maxpages_zero_not_rejected :
    runListValidate 10 0 = none ∧
    maxPagesEff 0 = 200 ∧
    (runListModel fsEmpty saverOK oracleTwoPages
      { limit := 10, maxPages := 0 }).2.countP isCallEvent = 1 := by
  decide

/-- C8 (amended): `runList` validates `--limit` against `0..500` and
rejects `--max-pages < 0` before any page call (a failed validation
produces no events); `maxPages = 0` is accepted, and `listBookmarks`
substitutes the default cap 200 for any non-positive value. -/
theorem runList_validation_amended :
    (∀ limit maxPages : Int, runListValidate limit maxPages = none ↔
      (0 ≤ limit ∧ limit ≤ 500 ∧ 0 ≤ maxPages)) ∧
    (∀ fs saver oracle p, runListValidate p.limit p.maxPages ≠ none →
      (runListModel fs saver oracle p).2 = []) ∧
    (∀ m : Int, m ≤ 0 → maxPagesEff m = 200) := by
  refine ⟨?_, ?_, ?_⟩
  · intro limit maxPages
    unfold runListValidate
    split
    · rename_i h
      constructor
      · intro hc
        exact absurd hc (by simp)
      · intro hc
        exfalso
        omega
    · split
      · rename_i h1 h2
        constructor
        · intro hc
          exact absurd hc (by simp)
        · intro hc
          exfalso
          omega
      · rename_i h1 h2
        constructor
        · intro _
          omega
        · intro _
          rfl
  · intro fs saver oracle p h
    unfold runListModel
    cases hv : runListValidate p.limit p.maxPages with
    | none => exact absurd hv h
    | some msg => rfl
  · intro m hm
    unfold maxPagesEff
    rw [if_pos hm]

/-- Witness: a negative limit is rejected with no page call, and
`maxPages = 0` maps to the default cap. -/
theorem runList_validation_amended_witness :
    (runListModel fsEmpty saverOK oracleTwoPages { limit := -1, maxPages := 5 }).2 = [] ∧
    maxPagesEff 0 = 200 :=
  ⟨runList_validation_amended.2.1 fsEmpty saverOK oracleTwoPages
      { limit := -1, maxPages := 5 } (by decide),
   runList_validation_amended.2.2 0 (by decide)⟩

/-- `charsLe` is total. -/
theorem charsLe_total : ∀ l m : List Char, charsLe l m = true ∨ charsLe m l = true := by
  intro l
  induction l with
  | nil => intro m; left; rfl
  | cons a as ih =>
      intro m
      match m with
      | [] => right; rfl
      | b :: bs =>
          rcases lt_trichotomy a b with h | h | h
          · left
            simp [charsLe, h]
          · subst h
            rcases ih bs with hl | hr
            · left
              simp [charsLe, lt_irrefl, hl]
            · right
              simp [charsLe, lt_irrefl, hr]
          · right
            simp [charsLe, h]

/-- `charsLe` is transitive. -/
theorem charsLe_trans : ∀ l m n : List Char,
    charsLe l m = true → charsLe m n = true → charsLe l n = true := by
  intro l
  induction l with
  | nil => intro m n _ _; rfl
  | cons a as ih =>
      intro m n hlm hmn
      match m, n with
      | [], _ => simp [charsLe] at hlm
      | b :: bs, [] => simp [charsLe] at hmn
      | b :: bs, c :: cs =>
          rcases lt_trichotomy a b with hab | hab | hab
          · rcases lt_trichotomy b c with hbc | hbc | hbc
            · simp [charsLe, lt_trans hab hbc]
            · subst hbc
              simp [charsLe, hab]
            · simp [charsLe, hbc, lt_asymm hbc] at hmn
          · subst hab
            simp only [charsLe, lt_irrefl, if_false] at hlm
            rcases lt_trichotomy a c with hac | hac | hac
            · simp [charsLe, hac]
            · subst hac
              simp only [charsLe, lt_irrefl, if_false] at hmn ⊢
              exact ih bs cs hlm hmn
            · simp [charsLe, hac, lt_asymm hac] at hmn
          · simp [charsLe, hab, lt_asymm hab] at hlm

/-- `charsLe` is antisymmetric. -/
theorem charsLe_antisymm : ∀ l m : List Char,
    charsLe l m = true → charsLe m l = true → l = m := by
  intro l
  induction l with
  | nil =>
      intro m hlm hml
      match m with
      | [] => rfl
      | b :: bs => simp [charsLe] at hml
  | cons a as ih =>
      intro m hlm hml
      match m with
      | [] => simp [charsLe] at hlm
      | b :: bs =>
          rcases lt_trichotomy a b with hab | hab | hab
          · simp [charsLe, hab, lt_asymm hab] at hml
          · subst hab
            simp only [charsLe, lt_irrefl, if_false] at hlm hml
            rw [ih bs hlm hml]
          · simp [charsLe, hab, lt_asymm hab] at hlm

/-- Strings with equal character lists are equal. -/
theorem str_eq_of_data {s t : String} (h : s.data = t.data) : s = t := by
  cases s with
  | mk d1 =>
      cases t with
      | mk d2 => exact congrArg String.mk h

instance : IsTotal String (fun a b => strLe a b = true) :=
  ⟨fun a b => charsLe_total a.data b.data⟩

instance : IsTrans String (fun a b => strLe a b = true) :=
  ⟨fun a b c => charsLe_trans a.data b.data c.data⟩

instance : IsAntisymm String (fun a b => strLe a b = true) :=
  ⟨fun a b h1 h2 => str_eq_of_data (charsLe_antisymm a.data b.data h1 h2)⟩

/-- `sortStrings` sorts with respect to native string order. -/
theorem sortStrings_sorted (l : List String) :
    List.Sorted (fun a b => strLe a b = true) (sortStrings l) :=
  List.sorted_insertionSort _ l

/-- `sortStrings` permutes its input. -/
theorem sortStrings_perm (l : List String) : (sortStrings l).Perm l :=
  List.perm_insertionSort _ l

/-- Two lists that are permutations of one another sort identically. -/
theorem sortStrings_eq_of_perm (l₁ l₂ : List String) (h : l₁.Perm l₂) :
    sortStrings l₁ = sortStrings l₂ :=
  List.eq_of_perm_of_sorted
    ((sortStrings_perm l₁).trans (h.trans (sortStrings_perm l₂).symm))
    (sortStrings_sorted l₁) (sortStrings_sorted l₂)

/-- With pairwise-distinct keys, the Go-map read returns the unique
entry stored under a present key. -/
theorem cursorGet_eq_of_mem (cur : Cursor) (k : String) (v : CursorEntry) :
    (cursorKeys cur).Nodup → (k, v) ∈ cur → cursorGet cur k = v := by
  induction cur with
  | nil => intro _ hv; cases hv
  | cons p rest ih =>
      intro hnd hv
      obtain ⟨k', v'⟩ := p
      rw [cursorKeys, List.map_cons, List.nodup_cons] at hnd
      rw [List.mem_cons] at hv
      by_cases hkk : k' = k
      · subst hkk
        rw [cursorGet, List.find?_cons_of_pos _ (by simp)]
        rcases hv with hv | hv
        · cases hv
          rfl
        · exact absurd (by simpa [cursorKeys] using List.mem_map_of_mem Prod.fst hv) hnd.1
      · rw [cursorGet, List.find?_cons_of_neg _ (by simp [hkk])]
        rcases hv with hv | hv
        · exact absurd (congrArg Prod.fst hv).symm hkk
        · exact ih hnd.2 hv

/-- The Go-map read of an absent key yields the zero entry. -/
theorem cursorGet_of_not_mem (cur : Cursor) (k : String) :
    k ∉ cursorKeys cur → cursorGet cur k = {} := by
  induction cur with
  | nil => intro _; rfl
  | cons p rest ih =>
      intro h
      rw [cursorKeys, List.map_cons, List.mem_cons] at h
      push_neg at h
      rw [cursorGet, List.find?_cons_of_neg _ (by simp; exact fun hc => h.1 hc.symm)]
      exact ih h.2

/-- Go-map reads agree across permutations of a nodup-keyed cursor. -/
theorem cursorGet_perm (cur cur' : Cursor) (hnd : (cursorKeys cur).Nodup)
    (hp : cur'.Perm cur) (k : String) : cursorGet cur' k = cursorGet cur k := by
  have hkeys : (cursorKeys cur').Perm (cursorKeys cur) := hp.map Prod.fst
  have hnd' : (cursorKeys cur').Nodup := hkeys.symm.nodup hnd
  by_cases hk : k ∈ cursorKeys cur
  · obtain ⟨p, hpmem, hpk⟩ := List.mem_map.mp hk
    obtain ⟨k1, v⟩ := p
    cases hpk
    rw [cursorGet_eq_of_mem cur _ v hnd hpmem,
      cursorGet_eq_of_mem cur' _ v hnd' (hp.mem_iff.mpr hpmem)]
  · rw [cursorGet_of_not_mem cur k hk,
      cursorGet_of_not_mem cur' k (fun hc => hk (hkeys.mem_iff.mp hc))]

/-- `haveStringFromCursor` unfolded: sorted ids, formatted, joined. -/
theorem haveString_eq (cur : Cursor) :
    haveStringFromCursor cur =
      joinSep "," ((sortStrings (cursorKeys cur)).map
        (fun id => formatHaveEntry id (cursorGet cur id))) := by
  cases cur <;> rfl

/-- C4: the "have" serialization emits each entry in one of the three
shapes `id`, `id:hash`, `id:hash:progress:progressTimestamp`, joins them
with `,` over the ids in ascending native string order, and is invariant
under reordering of the entry set (deterministic for a given set). -/
theorem haveString_shape_sorted_deterministic (cur : Cursor)
    (hnd : (cursorKeys cur).Nodup) :
    haveStringFromCursor cur =
      joinSep "," ((sortStrings (cursorKeys cur)).map
        (fun id => formatHaveEntry id (cursorGet cur id))) ∧
    (∀ id e, formatHaveEntry id e = id ∨
      formatHaveEntry id e = id ++ ":" ++ e.hash ∨
      formatHaveEntry id e =
        id ++ ":" ++ e.hash ++ ":" ++ formatFloat e.progress ++ ":" ++
          toString e.progressTimestamp) ∧
    (sortStrings (cursorKeys cur)).Perm (cursorKeys cur) ∧
    List.Pairwise (fun a b => strLe a b = true ∧ a ≠ b)
      (sortStrings (cursorKeys cur)) ∧
    (∀ cur' : Cursor, cur'.Perm cur →
      haveStringFromCursor cur' = haveStringFromCursor cur) := by
  refine ⟨haveString_eq cur, ?_, sortStrings_perm _, ?_, ?_⟩
  · intro id e
    by_cases h1 : e.hash = ""
    · left
      simp [formatHaveEntry, h1]
    · by_cases h2 : e.progressTimestamp > 0
      · right; right
        simp [formatHaveEntry, h1, h2, joinSep, String.append_assoc]
      · right; left
        simp [formatHaveEntry, h1, h2]
  · have hnd' : (sortStrings (cursorKeys cur)).Nodup :=
      (sortStrings_perm (cursorKeys cur)).symm.nodup hnd
    exact (sortStrings_sorted (cursorKeys cur)).and hnd'
  · intro cur' hperm
    have hkeys : (cursorKeys cur').Perm (cursorKeys cur) := hperm.map Prod.fst
    rw [haveString_eq, haveString_eq, sortStrings_eq_of_perm _ _ hkeys]
    congr 1
    apply List.map_congr_left
    intro id _
    rw [cursorGet_perm cur cur' hnd hperm id]

/-- Witness: a two-entry cursor serializes identically after swapping
its entries. -/
theorem haveString_deterministic_witness :
    haveStringFromCursor [("6", ⟨"def", {}, 0⟩), ("5", ⟨"abc", {}, 0⟩)] =
      haveStringFromCursor [("5", ⟨"abc", {}, 0⟩), ("6", ⟨"def", {}, 0⟩)] :=
  (haveString_shape_sorted_deterministic
      [("5", ⟨"abc", {}, 0⟩), ("6", ⟨"def", {}, 0⟩)] (by decide)).2.2.2.2
    [("6", ⟨"def", {}, 0⟩), ("5", ⟨"abc", {}, 0⟩)] (by decide)

/-- Every event the page loop emits is a page call (the loop never
writes the cursor file). -/
theorem listLoop_events_calls (oracle : Nat → ListOpts → Except Nat PageResp)
    (p : ListParams) (limit maxPages : Int) :
    ∀ (fuel : Nat) (st : LoopState) (pages : Nat),
      ∀ e ∈ (listLoop oracle p limit maxPages st pages fuel).2, isCallEvent e = true := by
  intro fuel
  induction fuel with
  | zero =>
      intro st pages e he
      simp [listLoop] at he
  | succ f ih =>
      intro st pages e he
      rw [listLoop] at he
      by_cases hg : (p.limit == 0) = true ∧ ((pages + 1 : Nat) : Int) > maxPages
      · rw [if_pos hg] at he
        simp at he
      · rw [if_neg hg] at he
        dsimp only at he
        cases ho : oracle (pages + 1)
            ⟨limit, p.folderID, p.tag, st.haveStr, p.highlights⟩ with
        | error t =>
            rw [ho] at he
            dsimp only at he
            simp only [List.mem_singleton] at he
            simp [he, isCallEvent]
        | ok r =>
            rw [ho] at he
            dsimp only at he
            cases hph : p.pageHandler with
            | some hnd =>
                rw [hph] at he
                dsimp only at he
                cases hh : hnd r.bookmarks (pages + 1) with
                | some t =>
                    rw [hh] at he
                    dsimp only at he
                    simp only [List.mem_singleton] at he
                    simp [he, isCallEvent]
                | none =>
                    rw [hh] at he
                    dsimp only at he
                    split at he
                    · simp only [List.mem_singleton] at he
                      simp [he, isCallEvent]
                    · split at he
                      all_goals
                        simp only [List.mem_cons] at he
                        rcases he with he | he
                        · simp [he, isCallEvent]
                        · exact ih _ _ e he
            | none =>
                rw [hph] at he
                dsimp only at he
                split at he
                · simp only [List.mem_singleton] at he
                  simp [he, isCallEvent]
                · split at he
                  all_goals
                    simp only [List.mem_cons] at he
                    rcases he with he | he
                    · simp [he, isCallEvent]
                    · exact ih _ _ e he

/-- A page-loop error is never a save, load, or usage error. -/
theorem listLoop_err_shape (oracle : Nat → ListOpts → Except Nat PageResp)
    (p : ListParams) (limit maxPages : Int) :
    ∀ (fuel : Nat) (st : LoopState) (pages : Nat) (e : WalkErr),
      (listLoop oracle p limit maxPages st pages fuel).1 = .error e →
      (∀ t, e ≠ .save t) ∧ (∀ t, e ≠ .load t) ∧ (∀ m, e ≠ .usage m) := by
  intro fuel
  induction fuel with
  | zero =>
      intro st pages e h
      rw [listLoop] at h
      cases h
      exact ⟨fun t => by simp, fun t => by simp, fun m => by simp⟩
  | succ f ih =>
      intro st pages e h
      rw [listLoop] at h
      by_cases hg : (p.limit == 0) = true ∧ ((pages + 1 : Nat) : Int) > maxPages
      · rw [if_pos hg] at h
        cases h
        exact ⟨fun t => by simp, fun t => by simp, fun m => by simp⟩
      · rw [if_neg hg] at h
        dsimp only at h
        cases ho : oracle (pages + 1)
            ⟨limit, p.folderID, p.tag, st.haveStr, p.highlights⟩ with
        | error t =>
            rw [ho] at h
            dsimp only at h
            cases h
            exact ⟨fun t => by simp, fun t => by simp, fun m => by simp⟩
        | ok r =>
            rw [ho] at h
            dsimp only at h
            cases hph : p.pageHandler with
            | some hnd =>
                rw [hph] at h
                dsimp only at h
                cases hh : hnd r.bookmarks (pages + 1) with
                | some t =>
                    rw [hh] at h
                    dsimp only at h
                    cases h
                    exact ⟨fun t => by simp, fun t => by simp, fun m => by simp⟩
                | none =>
                    rw [hh] at h
                    dsimp only at h
                    split at h
                    · cases h
                    · split at h
                      all_goals exact ih _ _ e h
            | none =>
                rw [hph] at h
                dsimp only at h
                split at h
                · cases h
                · split at h
                  all_goals exact ih _ _ e h

/-- The page loop preserves an active cursor: a successful loop run
started with a cursor returns one. -/
theorem listLoop_cursor_some (oracle : Nat → ListOpts → Except Nat PageResp)
    (p : ListParams) (limit maxPages : Int) :
    ∀ (fuel : Nat) (st : LoopState) (pages : Nat) (r : WalkResp) (c : Option Cursor),
      st.cursor.isSome = true →
      (listLoop oracle p limit maxPages st pages fuel).1 = .ok (r, c) →
      c.isSome = true := by
  intro fuel
  induction fuel with
  | zero =>
      intro st pages r c _ h
      rw [listLoop] at h
      cases h
  | succ f ih =>
      intro st pages r c hsome h
      rw [listLoop] at h
      by_cases hg : (p.limit == 0) = true ∧ ((pages + 1 : Nat) : Int) > maxPages
      · rw [if_pos hg] at h
        cases h
      · rw [if_neg hg] at h
        dsimp only at h
        cases ho : oracle (pages + 1)
            ⟨limit, p.folderID, p.tag, st.haveStr, p.highlights⟩ with
        | error t =>
            rw [ho] at h
            dsimp only at h
            cases h
        | ok r2 =>
            rw [ho] at h
            dsimp only at h
            obtain ⟨cur, hc⟩ := Option.isSome_iff_exists.mp hsome
            cases hph : p.pageHandler with
            | some hnd =>
                rw [hph] at h
                dsimp only at h
                cases hh : hnd r2.bookmarks (pages + 1) with
                | some t =>
                    rw [hh] at h
                    dsimp only at h
                    cases h
                | none =>
                    rw [hh] at h
                    rw [hc] at h
                    dsimp only at h
                    split at h
                    · cases h
                      rfl
                    · split at h
                      all_goals exact ih _ _ r c (by rfl) h
            | none =>
                rw [hph] at h
                rw [hc] at h
                dsimp only at h
                split at h
                · cases h
                  rfl
                · split at h
                  all_goals exact ih _ _ r c (by rfl) h

/-- Every event the walk phase emits is a page call. -/
theorem walk_events_calls (fs : String → Except Nat (Option Cursor))
    (oracle : Nat → ListOpts → Except Nat PageResp) (p : ListParams) :
    ∀ e ∈ (listBookmarksWalk fs oracle p).2, isCallEvent e = true := by
  intro e he
  rw [listBookmarksWalk] at he
  by_cases hp : p.cursorPath = ""
  · rw [if_neg (not_not_intro hp)] at he
    dsimp only at he
    exact listLoop_events_calls oracle p _ _ _ _ _ e he
  · rw [if_pos hp] at he
    cases hload : loadCursorM fs p.cursorPath with
    | error t =>
        rw [hload] at he
        simp at he
    | ok c0 =>
        rw [hload] at he
        dsimp only at he
        exact listLoop_events_calls oracle p _ _ _ _ _ e he

/-- A walk-phase error is never a save error. -/
theorem walk_err_not_save (fs : String → Except Nat (Option Cursor))
    (oracle : Nat → ListOpts → Except Nat PageResp) (p : ListParams)
    (e : WalkErr) (h : (listBookmarksWalk fs oracle p).1 = .error e) :
    ∀ t, e ≠ .save t := by
  rw [listBookmarksWalk] at h
  by_cases hp : p.cursorPath = ""
  · rw [if_neg (not_not_intro hp)] at h
    dsimp only at h
    exact (listLoop_err_shape oracle p _ _ _ _ _ e h).1
  · rw [if_pos hp] at h
    cases hload : loadCursorM fs p.cursorPath with
    | error t =>
        rw [hload] at h
        cases h
        intro t
        simp
    | ok c0 =>
        rw [hload] at h
        dsimp only at h
        exact (listLoop_err_shape oracle p _ _ _ _ _ e h).1

/-- With a cursor file configured, a successful walk ends with an
active cursor. -/
theorem walk_cursor_some (fs : String → Except Nat (Option Cursor))
    (oracle : Nat → ListOpts → Except Nat PageResp) (p : ListParams)
    (hpath : p.cursorPath ≠ "") (r : WalkResp) (c : Option Cursor)
    (h : (listBookmarksWalk fs oracle p).1 = .ok (r, c)) : c.isSome = true := by
  rw [listBookmarksWalk] at h
  rw [if_pos hpath] at h
  cases hload : loadCursorM fs p.cursorPath with
  | error t =>
      rw [hload] at h
      cases h
  | ok c0 =>
      rw [hload] at h
      dsimp only at h
      refine listLoop_cursor_some oracle p _ _ _ _ _ r c ?_ h
      dsimp only
      split
      · rfl
      · split
        · rfl
        · rfl

/-- A list of page-call events contains no save events. -/
theorem filter_save_of_calls (l : List Event)
    (hl : ∀ e ∈ l, isCallEvent e = true) : l.filter isSaveEvent = [] := by
  rw [List.filter_eq_nil_iff]
  intro a ha
  have := hl a ha
  cases a <;> simp_all [isCallEvent, isSaveEvent]

/-- C6: with an active cursor file, `listBookmarks` writes the cursor
file at most once; a successful walk writes it exactly once, as the very
last action; a walk that fails (for any reason other than the final
write itself) returns the error with no cursor write at all. -/
theorem listBookmarks_save_discipline (fs : String → Except Nat (Option Cursor))
    (saver : String → Cursor → Option Nat)
    (oracle : Nat → ListOpts → Except Nat PageResp) (p : ListParams)
    (hpath : p.cursorPath ≠ "") :
    ((listBookmarks fs saver oracle p).2.filter isSaveEvent).length ≤ 1 ∧
    (∀ r, (listBookmarks fs saver oracle p).1 = .ok r →
      ∃ cur, (listBookmarks fs saver oracle p).2.filter isSaveEvent =
          [.save p.cursorPath cur] ∧
        (listBookmarks fs saver oracle p).2.getLast? =
          some (.save p.cursorPath cur)) ∧
    (∀ e, (listBookmarks fs saver oracle p).1 = .error e →
      (∀ t, e ≠ WalkErr.save t) →
      (listBookmarks fs saver oracle p).2.filter isSaveEvent = []) ∧
    (∀ t, (listBookmarks fs saver oracle p).1 = .error (.save t) →
      ∃ cur, (listBookmarks fs saver oracle p).2.filter isSaveEvent =
          [.save p.cursorPath cur] ∧
        (listBookmarks fs saver oracle p).2.getLast? =
          some (.save p.cursorPath cur)) := by
  rcases hw : listBookmarksWalk fs oracle p with ⟨res, evs⟩
  have hnos : evs.filter isSaveEvent = [] :=
    filter_save_of_calls evs (fun e he => walk_events_calls fs oracle p e (by rw [hw]; exact he))
  rw [listBookmarks, hw]
  cases res with
  | error e0 =>
      dsimp only
      refine ⟨by simp [hnos], ?_, ?_, ?_⟩
      · intro r hr
        cases hr
      · intro e h _
        cases h
        exact hnos
      · intro t h
        exfalso
        cases h
        exact walk_err_not_save fs oracle p _ (by rw [hw]) t rfl
  | ok rc =>
      obtain ⟨resp, cursorF⟩ := rc
      have hsome := walk_cursor_some fs oracle p hpath resp cursorF (by rw [hw])
      obtain ⟨cur, hcur⟩ := Option.isSome_iff_exists.mp hsome
      subst hcur
      dsimp only
      rw [if_neg hpath]
      cases hs : saver p.cursorPath cur with
      | some t =>
          dsimp only
          refine ⟨?_, ?_, ?_, ?_⟩
          · simp [List.filter_append, hnos, isSaveEvent]
          · intro r hr
            cases hr
          · intro e h hne
            exfalso
            cases h
            exact hne t rfl
          · intro t2 h
            exact ⟨cur, by simp [List.filter_append, hnos, isSaveEvent],
              List.getLast?_concat _⟩
      | none =>
          dsimp only
          refine ⟨?_, ?_, ?_, ?_⟩
          · simp [List.filter_append, hnos, isSaveEvent]
          · intro r hr
            exact ⟨cur, by simp [List.filter_append, hnos, isSaveEvent],
              List.getLast?_concat _⟩
          · intro e h hne
            cases h
          · intro t2 h
            cases h

/-- With `limit > 0`, the page loop performs exactly one page call. -/
theorem listLoop_one_call (oracle : Nat → ListOpts → Except Nat PageResp)
    (p : ListParams) (limit maxPages : Int) (hlim : 0 < p.limit) :
    ∀ (fuel : Nat) (st : LoopState) (pages : Nat), 1 ≤ fuel →
      ((listLoop oracle p limit maxPages st pages fuel).2.countP isCallEvent) = 1 := by
  intro fuel st pages hfuel
  match fuel, hfuel with
  | f + 1, _ =>
      rw [listLoop]
      have hg : ¬((p.limit == 0) = true ∧ ((pages + 1 : Nat) : Int) > maxPages) := by
        rintro ⟨h1, _⟩
        rw [beq_iff_eq] at h1
        omega
      rw [if_neg hg]
      dsimp only
      cases ho : oracle (pages + 1)
          ⟨limit, p.folderID, p.tag, st.haveStr, p.highlights⟩ with
      | error t =>
          dsimp only
          simp [List.countP_cons, isCallEvent]
      | ok r =>
          dsimp only
          cases hph : p.pageHandler with
          | some hnd =>
              dsimp only
              cases hh : hnd r.bookmarks (pages + 1) with
              | some t =>
                  dsimp only
                  simp [List.countP_cons, isCallEvent]
              | none =>
                  dsimp only
                  rw [if_pos (Or.inl hlim)]
                  simp [List.countP_cons, isCallEvent]
          | none =>
              dsimp only
              rw [if_pos (Or.inl hlim)]
              simp [List.countP_cons, isCallEvent]

/-- Open-ended page loop, all pages delivered: the loop stops
successfully on the first empty page, after exactly that many calls. -/
theorem listLoop_first_empty (f : Nat → PageResp) (p : ListParams)
    (limit maxPages : Int) (hlim : p.limit = 0) (hph : p.pageHandler = none) :
    ∀ (fuel : Nat) (st : LoopState) (pages k : Nat),
      1 ≤ k → k ≤ fuel → ((pages + k : Nat) : Int) ≤ maxPages →
      (f (pages + k)).bookmarks.isEmpty = true →
      (∀ m, pages < m → m < pages + k → (f m).bookmarks.isEmpty = false) →
      (∃ rc, (listLoop (fun n _ => .ok (f n)) p limit maxPages st pages fuel).1 =
        .ok rc) ∧
      ((listLoop (fun n _ => .ok (f n)) p limit maxPages st pages fuel).2.countP
        isCallEvent) = k := by
  intro fuel
  induction fuel with
  | zero => intro st pages k hk hkf; omega
  | succ fl ih =>
      intro st pages k hk hkf hkmax hempty hbefore
      rw [listLoop]
      have hg : ¬((p.limit == 0) = true ∧ ((pages + 1 : Nat) : Int) > maxPages) := by
        rintro ⟨_, h2⟩
        have : ((pages + 1 : Nat) : Int) ≤ ((pages + k : Nat) : Int) := by
          push_cast
          omega
        omega
      rw [if_neg hg]
      dsimp only
      rw [hph]
      dsimp only
      match k, hk with
      | 1, _ =>
          rw [if_pos (Or.inr (by simpa using hempty))]
          refine ⟨⟨_, rfl⟩, ?_⟩
          simp [List.countP_cons, isCallEvent]
      | k2 + 2, _ =>
          have hne : (f (pages + 1)).bookmarks.isEmpty = false :=
            hbefore (pages + 1) (by omega) (by omega)
          rw [if_neg (by
            rintro (h | h)
            · omega
            · rw [hne] at h
              cases h)]
          constructor
          · exact (ih _ (pages + 1) (k2 + 1) (by omega) (by omega)
              (by push_cast at hkmax ⊢; omega)
              (by rw [show pages + 1 + (k2 + 1) = pages + (k2 + 2) by omega]; exact hempty)
              (fun m hm1 hm2 => hbefore m (by omega) (by omega))).1
          · dsimp only
            rw [List.countP_cons,
              (ih _ (pages + 1) (k2 + 1) (by omega) (by omega)
                (by push_cast at hkmax ⊢; omega)
                (by rw [show pages + 1 + (k2 + 1) = pages + (k2 + 2) by omega]; exact hempty)
                (fun m hm1 hm2 => hbefore m (by omega) (by omega))).2]
            simp [isCallEvent]

/-- Open-ended page loop against a server that never sends an empty
page: the loop exhausts the page cap and fails, making `maxPages`
calls. -/
theorem listLoop_never_empty (f : Nat → PageResp) (p : ListParams)
    (limit maxPages : Int) (hlim : p.limit = 0) (hph : p.pageHandler = none)
    (hne : ∀ n, (f n).bookmarks.isEmpty = false) :
    ∀ (fuel : Nat) (st : LoopState) (pages : Nat),
      ((pages : Nat) : Int) ≤ maxPages → ((fuel : Nat) : Int) = maxPages - pages + 1 →
      (listLoop (fun n _ => .ok (f n)) p limit maxPages st pages fuel).1 =
        .error .maxPagesExceeded ∧
      ((listLoop (fun n _ => .ok (f n)) p limit maxPages st pages fuel).2.countP
        isCallEvent) = fuel - 1 := by
  intro fuel
  induction fuel with
  | zero =>
      intro st pages hp hf
      exfalso
      push_cast at hf
      omega
  | succ fl ih =>
      intro st pages hp hf
      rw [listLoop]
      by_cases hlast : fl = 0
      · subst hlast
        have hmp : maxPages = (pages : Int) := by push_cast at hf; omega
        rw [if_pos ⟨beq_iff_eq.mpr hlim, by omega⟩]
        exact ⟨rfl, rfl⟩
      · have hlt : ((pages + 1 : Nat) : Int) ≤ maxPages := by push_cast at hf ⊢; omega
        rw [if_neg (by rintro ⟨_, h2⟩; omega)]
        dsimp only
        rw [hph]
        dsimp only
        rw [if_neg (by
          rintro (h | h)
          · omega
          · rw [hne (pages + 1)] at h
            cases h)]
        constructor
        · exact (ih _ (pages + 1) hlt (by push_cast at hf ⊢; omega)).1
        · dsimp only
          rw [List.countP_cons, (ih _ (pages + 1) hlt (by push_cast at hf ⊢; omega)).2]
          simp only [isCallEvent, if_true]
          omega

/-- When the cursor file loads cleanly, the walk phase is a page-loop
run with the default page cap and full fuel. -/
theorem walk_eq_loop (fs : String → Except Nat (Option Cursor))
    (oracle : Nat → ListOpts → Except Nat PageResp) (p : ListParams)
    (hload : ∀ t, fs p.cursorPath ≠ .error t) :
    ∃ (st : LoopState) (L : Int),
      listBookmarksWalk fs oracle p =
        listLoop oracle p L (maxPagesEff p.maxPages) st 0
          ((maxPagesEff p.maxPages).toNat + 1) := by
  rw [listBookmarksWalk]
  by_cases hp : p.cursorPath = ""
  · rw [if_neg (not_not_intro hp)]
    dsimp only
    exact ⟨_, _, rfl⟩
  · rw [if_pos hp]
    cases hl : loadCursorM fs p.cursorPath with
    | error t =>
        exfalso
        rw [loadCursorM, if_neg hp] at hl
        cases hfs : fs p.cursorPath with
        | error t2 => exact hload t2 hfs
        | ok c =>
            rw [hfs] at hl
            cases c <;> cases hl
    | ok c0 =>
        dsimp only
        exact ⟨_, _, rfl⟩

/-- The save step adds no page calls. -/
theorem listBookmarks_calls_eq_walk (fs : String → Except Nat (Option Cursor))
    (saver : String → Cursor → Option Nat)
    (oracle : Nat → ListOpts → Except Nat PageResp) (p : ListParams) :
    ((listBookmarks fs saver oracle p).2.countP isCallEvent) =
      ((listBookmarksWalk fs oracle p).2.countP isCallEvent) := by
  rw [listBookmarks]
  rcases hw : listBookmarksWalk fs oracle p with ⟨res, evs⟩
  cases res with
  | error e => rfl
  | ok rc =>
      obtain ⟨resp, cF⟩ := rc
      cases cF with
      | none => rfl
      | some cur =>
          dsimp only
          by_cases hp : p.cursorPath = ""
          · rw [if_pos hp]
          · rw [if_neg hp]
            cases saver p.cursorPath cur <;>
              (dsimp only
               rw [List.countP_append]
               simp [isCallEvent])

/-- A walk error propagates unchanged through the save step. -/
theorem listBookmarks_err_of_walk_err (fs : String → Except Nat (Option Cursor))
    (saver : String → Cursor → Option Nat)
    (oracle : Nat → ListOpts → Except Nat PageResp) (p : ListParams) (e : WalkErr)
    (h : (listBookmarksWalk fs oracle p).1 = .error e) :
    (listBookmarks fs saver oracle p).1 = .error e := by
  rw [listBookmarks]
  rcases hw : listBookmarksWalk fs oracle p with ⟨res, evs⟩
  rw [hw] at h
  cases res with
  | error e2 =>
      cases h
      rfl
  | ok rc => cases h

/-- With a succeeding saver, a successful walk yields a successful
`listBookmarks` result. -/
theorem listBookmarks_ok_of_walk_ok (fs : String → Except Nat (Option Cursor))
    (saver : String → Cursor → Option Nat)
    (oracle : Nat → ListOpts → Except Nat PageResp) (p : ListParams)
    (hsaver : ∀ path cur, saver path cur = none) (r : WalkResp) (c : Option Cursor)
    (h : (listBookmarksWalk fs oracle p).1 = .ok (r, c)) :
    (listBookmarks fs saver oracle p).1 = .ok r := by
  rw [listBookmarks]
  rcases hw : listBookmarksWalk fs oracle p with ⟨res, evs⟩
  rw [hw] at h
  cases res with
  | error e2 => cases h
  | ok rc =>
      cases h
      cases c with
      | none => rfl
      | some cur =>
          dsimp only
          by_cases hp : p.cursorPath = ""
          · rw [if_pos hp]
          · rw [if_neg hp, hsaver p.cursorPath cur]

/-- The effective page cap is always at least 1. -/
theorem maxPagesEff_pos (m : Int) : 1 ≤ maxPagesEff m := by
  unfold maxPagesEff
  split <;> omega

/-- C7: an open-ended walk (`limit = 0`) stops successfully on the
first empty page, making exactly that many page calls; `limit > 0`
performs exactly one page call; and with `limit = 0`, `maxPages = 2`
and a server that never returns an empty page, exactly 2 page calls are
made and the walk fails with the max-pages error, without a third
call. -/
theorem paginator_stop_semantics :
    (∀ (fs : String → Except Nat (Option Cursor)) (saver : String → Cursor → Option Nat)
        (f : Nat → PageResp) (p : ListParams) (k : Nat),
      p.limit = 0 → p.pageHandler = none →
      (∀ t, fs p.cursorPath ≠ .error t) → (∀ path cur, saver path cur = none) →
      1 ≤ k → ((k : Nat) : Int) ≤ maxPagesEff p.maxPages →
      (f k).bookmarks.isEmpty = true →
      (∀ m, 1 ≤ m → m < k → (f m).bookmarks.isEmpty = false) →
      (∃ r, (listBookmarks fs saver (fun n _ => .ok (f n)) p).1 = .ok r) ∧
      ((listBookmarks fs saver (fun n _ => .ok (f n)) p).2.countP isCallEvent) = k) ∧
    (∀ (fs : String → Except Nat (Option Cursor)) (saver : String → Cursor → Option Nat)
        (oracle : Nat → ListOpts → Except Nat PageResp) (p : ListParams),
      0 < p.limit → (∀ t, fs p.cursorPath ≠ .error t) →
      ((listBookmarks fs saver oracle p).2.countP isCallEvent) = 1) ∧
    (∀ (fs : String → Except Nat (Option Cursor)) (saver : String → Cursor → Option Nat)
        (f : Nat → PageResp) (p : ListParams),
      p.limit = 0 → p.maxPages = 2 → p.pageHandler = none →
      (∀ t, fs p.cursorPath ≠ .error t) →
      (∀ n, (f n).bookmarks.isEmpty = false) →
      (listBookmarks fs saver (fun n _ => .ok (f n)) p).1 =
        .error .maxPagesExceeded ∧
      ((listBookmarks fs saver (fun n _ => .ok (f n)) p).2.countP isCallEvent) = 2) := by
  refine ⟨?_, ?_, ?_⟩
  · intro fs saver f p k hlim hph hload hsaver hk hkmax hempty hbefore
    obtain ⟨st, L, hw⟩ := walk_eq_loop fs (fun n _ => .ok (f n)) p hload
    have hMpos := maxPagesEff_pos p.maxPages
    have hloop := listLoop_first_empty f p L (maxPagesEff p.maxPages) hlim hph
      ((maxPagesEff p.maxPages).toNat + 1) st 0 k hk (by omega)
      (by simpa using hkmax) (by simpa using hempty)
      (fun m hm1 hm2 => hbefore m (by omega) (by omega))
    obtain ⟨⟨rc, hrc⟩, hcount⟩ := hloop
    constructor
    · obtain ⟨r, c⟩ := rc
      exact ⟨r, listBookmarks_ok_of_walk_ok fs saver _ p hsaver r c (by rw [hw]; exact hrc)⟩
    · rw [listBookmarks_calls_eq_walk, hw]
      exact hcount
  · intro fs saver oracle p hlim hload
    obtain ⟨st, L, hw⟩ := walk_eq_loop fs oracle p hload
    rw [listBookmarks_calls_eq_walk, hw]
    exact listLoop_one_call oracle p L (maxPagesEff p.maxPages) hlim _ st 0 (by omega)
  · intro fs saver f p hlim hmp hph hload hne
    obtain ⟨st, L, hw⟩ := walk_eq_loop fs (fun n _ => .ok (f n)) p hload
    have hM : maxPagesEff p.maxPages = 2 := by
      rw [hmp]
      decide
    have hloop := listLoop_never_empty f p L (maxPagesEff p.maxPages) hlim hph hne
      ((maxPagesEff p.maxPages).toNat + 1) st 0 (by omega) (by rw [hM]; norm_num)
    constructor
    · exact listBookmarks_err_of_walk_err fs saver _ p _ (by rw [hw]; exact hloop.1)
    · rw [listBookmarks_calls_eq_walk, hw, hloop.2, hM]
      decide

/-- Witness: a one-page limited walk with a cursor file writes the
cursor at most once. -/
theorem listBookmarks_save_discipline_witness :
    ((listBookmarks fsEmpty saverOK oracleTwoPages
        { limit := 3, cursorPath := "c" }).2.filter isSaveEvent).length ≤ 1 :=
  (listBookmarks_save_discipline fsEmpty saverOK oracleTwoPages
    { limit := 3, cursorPath := "c" } (by decide)).1

/-- Witness: the never-empty server with `maxPages = 2` makes exactly
two calls and fails with the max-pages error. -/
theorem paginator_stop_semantics_witness :
    (listBookmarks fsEmpty saverOK (fun _ _ => Except.ok pageOne)
        { limit := 0, maxPages := 2 }).1 = .error .maxPagesExceeded ∧
    ((listBookmarks fsEmpty saverOK (fun _ _ => Except.ok pageOne)
        { limit := 0, maxPages := 2 }).2.countP isCallEvent) = 2 :=
  paginator_stop_semantics.2.2 fsEmpty saverOK (fun _ => pageOne)
    { limit := 0, maxPages := 2 } rfl rfl rfl
    (fun t h => by cases h) (fun n => rfl)
